import Mathlib

/-!
Verification development for the harmonic-stack repository.

Shallow embedding of the two source modules:
  - harmonic_launcher.py : model catalog, hardware descriptors and the
    priority-ordered, budget-constrained allocation engine allocate_stack.
  - operator_oversight.py : the OperatorOversight coordination state with
    observe / record_success / record_failure / record_profile mutators,
    the two-tier get_context entry point and the briefing generator.

Python floats are modelled as exact rationals, Python str as List Char,
Python dicts keyed by strings as association lists with in-place update
on an existing key (dictInsert).  External effects (the HTTP transport of
the briefing generator, wall-clock timestamps) are passed in as explicit
oracle parameters.
-/

/-! ## harmonic_launcher.py : data model -/

/-- One entry of the MODELS catalog: base_gb, kv_gb, tier, source. -/
structure ModelSpec where
  base_gb : ℚ
  kv_gb : ℚ
  tier : ℕ
  source : String
deriving DecidableEq, Repr

/-- The MODELS table of harmonic_launcher.py, in source order. -/
def MODELS : List (String × ModelSpec) :=
  [ ("executive", ⟨2.5, 0.3, 1, "qwen3:4b"⟩),
    ("operator", ⟨2.5, 0.3, 1, "qwen3:4b"⟩),
    ("technical_director", ⟨5.2, 0.5, 2, "qwen3:8b"⟩),
    ("research_director", ⟨5.2, 0.5, 2, "qwen3:8b"⟩),
    ("creative_director", ⟨5.2, 0.5, 2, "qwen3:8b"⟩),
    ("analyst", ⟨5.2, 0.5, 3, "qwen3:8b"⟩),
    ("coder", ⟨9.3, 0.8, 3, "qwen3:14b"⟩),
    ("architect", ⟨18.0, 1.2, 4, "qwen3:30b-a3b"⟩),
    ("qwen3:4b", ⟨2.5, 0.3, 1, "qwen3:4b"⟩),
    ("qwen3:8b", ⟨5.2, 0.5, 2, "qwen3:8b"⟩),
    ("qwen3:14b", ⟨9.3, 0.8, 3, "qwen3:14b"⟩),
    ("qwen3:30b-a3b", ⟨18.0, 1.2, 4, "qwen3:30b-a3b"⟩) ]

/-- PARALLEL_STEPS of harmonic_launcher.py: parallel degrees tried in
descending order. -/
def PARALLEL_STEPS : List ℕ := [24, 20, 16, 12, 8, 6, 4, 2, 1]

/-- The catalog entry for the name qwen3:4b, which is the fallback spec of
MODELS.get(name, MODELS.get('qwen3:4b')). -/
def qwen4b : ModelSpec := ⟨2.5, 0.3, 1, "qwen3:4b"⟩

/-- Spec resolution MODELS.get(name, MODELS.get('qwen3:4b')); the lemma
lookup_qwen4b below checks that the fallback really is the qwen3:4b row. -/
def getSpec (n : String) : ModelSpec := (MODELS.lookup n).getD qwen4b

/-- model_memory of harmonic_launcher.py: base_gb + parallel * kv_gb for the
resolved spec of the given name. -/
def model_memory (model_name : String) (parallel : ℕ) : ℚ :=
  (getSpec model_name).base_gb + parallel * (getSpec model_name).kv_gb

/-- The hardware fields read by allocate_stack. -/
structure Hardware where
  gpu_mem_gb : ℚ
  reserve_pct : ℚ
  peak_parallel : ℕ
  max_parallel : ℕ
deriving DecidableEq, Repr

/-- The tier-derived parallel target of allocate_stack, including the clamp
max(min_parallel, min(target, max_parallel)).  Python int() truncation of
peak*0.75, peak*0.5, peak*0.33 on a nonnegative argument is floor, hence
natural-number division here. -/
def targetParallel (tier peak maxp minp : ℕ) : ℕ :=
  let t := if tier = 1 then peak
    else if tier = 2 then 3 * peak / 4
    else if tier = 3 then peak / 2
    else 33 * peak / 100
  max minp (min t maxp)

/-- One allocation result row; status none means the allocated shape (no
status key in the Python dict), some "skipped" the skipped shape. -/
structure AllocEntry where
  parallel : ℕ
  memory_gb : ℚ
  tier : ℕ
  source : String
  status : Option String
deriving DecidableEq, Repr

/-- round(x, 1) of Python on an exact rational: round to the nearest tenth,
ties to even (all values reachable from the catalog are exact tenths, so the
tie branch is never taken on reachable inputs). -/
def roundTenth (q : ℚ) : ℚ :=
  let f : ℤ := ⌊q * 10⌋
  let r : ℚ := q * 10 - f
  if r < 1/2 then (f : ℚ) / 10
  else if 1/2 < r then ((f : ℚ) + 1) / 10
  else if f % 2 = 0 then (f : ℚ) / 10 else ((f : ℚ) + 1) / 10

/-- Python dict assignment d[k] = v on an association list: replace the
value in place when the key is present, append otherwise. -/
def dictInsert {κ β : Type} [DecidableEq κ] :
    List (κ × β) → κ → β → List (κ × β)
  | [], k, v => [(k, v)]
  | (k', v') :: rest, k, v =>
      if k' = k then (k, v) :: rest else (k', v') :: dictInsert rest k v

/-- The running state of allocate_stack: the allocation dict built so far
and the remaining available memory. -/
structure AllocState where
  alloc : List (String × AllocEntry)
  available : ℚ
deriving DecidableEq, Repr

/-- The inner loop over PARALLEL_STEPS of allocate_stack: skip degrees above
the target, stop at degrees below min_parallel, return the first degree
whose memory need fits the remaining budget. -/
def scanSteps (steps : List ℕ) (tp minp : ℕ) (name : String) (avail : ℚ) :
    Option ℕ :=
  match steps with
  | [] => none
  | p :: rest =>
    if tp < p then scanSteps rest tp minp name avail
    else if p < minp then none
    else if model_memory name p ≤ avail then some p
    else scanSteps rest tp minp name avail

/-- The per-model body of allocate_stack: scan the steps and commit either
an allocated entry (subtracting its memory) or a skipped entry. -/
def allocStep (hw : Hardware) (minp : ℕ) (st : AllocState)
    (x : String × ModelSpec) : AllocState :=
  let tier := x.2.tier
  let tp := targetParallel tier hw.peak_parallel hw.max_parallel minp
  match scanSteps PARALLEL_STEPS tp minp x.1 st.available with
  | some p =>
    let mem := model_memory x.1 p
    { alloc := dictInsert st.alloc x.1 ⟨p, roundTenth mem, tier, x.2.source, none⟩,
      available := st.available - mem }
  | none =>
    { alloc := dictInsert st.alloc x.1 ⟨0, 0, tier, x.2.source, some "skipped"⟩,
      available := st.available }

/-- Comparison key of model_specs.sort(key=lambda x: x[1]['tier']). -/
def tierLe (a b : String × ModelSpec) : Prop := a.2.tier ≤ b.2.tier

instance : DecidableRel tierLe := fun a b => Nat.decLe a.2.tier b.2.tier

instance : IsTotal (String × ModelSpec) tierLe :=
  ⟨fun a b => Nat.le_total a.2.tier b.2.tier⟩

instance : IsTrans (String × ModelSpec) tierLe :=
  ⟨fun _ _ _ => Nat.le_trans⟩

/-- Pairing each model name with its resolved spec and stable-sorting by
tier, as in allocate_stack lines 292 to 294. -/
def sortSpecs (models : List String) : List (String × ModelSpec) :=
  List.insertionSort tierLe (models.map fun m => (m, getSpec m))

/-- available = gpu_mem * (1 - reserve). -/
def availBudget (hw : Hardware) : ℚ := hw.gpu_mem_gb * (1 - hw.reserve_pct)

/-- allocate_stack, kept with its full internal state (dict plus remaining
available memory). -/
def allocateFull (models : List String) (hw : Hardware) (minp : ℕ) :
    AllocState :=
  (sortSpecs models).foldl (allocStep hw minp) ⟨[], availBudget hw⟩

/-- allocate_stack of harmonic_launcher.py: the returned allocation dict. -/
def allocate_stack (models : List String) (hw : Hardware) (minp : ℕ) :
    List (String × AllocEntry) :=
  (allocateFull models hw minp).alloc

/-- Sum of the memory_gb field over all entries of an allocation dict. -/
def sumMem (l : List (String × AllocEntry)) : ℚ :=
  (l.map fun x => x.2.memory_gb).sum

/-- Every spec reachable through getSpec has base and kv equal to a
nonnegative multiple of one tenth. -/
def GoodSpec (s : ModelSpec) : Prop :=
  ∃ a b : ℕ, s.base_gb = (a : ℚ) / 10 ∧ s.kv_gb = (b : ℚ) / 10

/-- The allocation loop invariant behind the memory bound: never-negative
remaining budget, the entry sum plus the remaining budget within the
original budget, and nonnegative committed entries. -/
def AllocInv (B : ℚ) (st : AllocState) : Prop :=
  0 ≤ st.available ∧ sumMem st.alloc + st.available ≤ B ∧
    ∀ x ∈ st.alloc, 0 ≤ x.2.memory_gb

/-- The reported shape of every entry of an allocation result: a positive
degree, or the degree-0 memory-0 skipped record. -/
def EntryReport (e : AllocEntry) : Prop :=
  0 < e.parallel ∨ (e.parallel = 0 ∧ e.memory_gb = 0 ∧ e.status = some "skipped")

/-! ## operator_oversight.py : data model -/

/-- Python str as a sequence of characters. -/
abbrev Str := List Char

/-- Literal helper turning a Lean string literal into a Str. -/
def strLit (s : String) : Str := s.data

/-- Decimal rendering of a natural number. -/
def natStr (n : ℕ) : Str := (toString n).data

/-- Decimal rendering of an integer. -/
def intStr (n : ℤ) : Str := (toString n).data

/-- One entry of activity_log; time is the caller-supplied timestamp
(datetime.now().isoformat() in the source). -/
structure ActivityEvent where
  task_id : Str
  stage : Str
  model : Str
  category : Str
  detail : Str
  time : Str
deriving DecidableEq, Repr

/-- One entry of successful_approaches. -/
structure SuccessRecord where
  category : Str
  approach : Str
  profile : Str
  count : ℤ
deriving DecidableEq, Repr

/-- One entry of failed_approaches. -/
structure FailureRecord where
  category : Str
  approach : Str
deriving DecidableEq, Repr

/-- The mutable state of an OperatorOversight instance. -/
structure OperatorState where
  activity_log : List ActivityEvent
  successful_approaches : List SuccessRecord
  failed_approaches : List FailureRecord
  active_profiles : List (Str × Str)
  groups_processed : ℕ
  total_suggestions_made : ℕ
deriving DecidableEq, Repr

/-- observe: append one ActivityEvent, detail truncated to 300 chars. -/
def observe (st : OperatorState) (task_id stage model category detail now : Str) :
    OperatorState :=
  { st with activity_log :=
      st.activity_log ++ [⟨task_id, stage, model, category, detail.take 300, now⟩] }

/-- record_profile: upsert the 500-char-truncated profile for task_id. -/
def record_profile (st : OperatorState) (task_id profile : Str) : OperatorState :=
  { st with active_profiles := dictInsert st.active_profiles task_id (profile.take 500) }

/-- record_success: append a SuccessRecord with approach and profile
truncated to 400 chars. -/
def record_success (st : OperatorState) (category approach : Str) (count : ℤ)
    (profile : Str) : OperatorState :=
  { st with successful_approaches :=
      st.successful_approaches ++ [⟨category, approach.take 400, profile.take 400, count⟩] }

/-- record_failure: append a FailureRecord with approach truncated to
300 chars. -/
def record_failure (st : OperatorState) (category approach : Str) : OperatorState :=
  { st with failed_approaches :=
      st.failed_approaches ++ [⟨category, approach.take 300⟩] }

/-- Python str.strip(): drop whitespace from both ends. -/
def stripChars (s : Str) : Str :=
  ((s.dropWhile Char.isWhitespace).reverse.dropWhile Char.isWhitespace).reverse

/-- Python l[-n:] for a positive literal n: the last n elements. -/
def takeLast {α : Type} (n : ℕ) (l : List α) : List α := l.drop (l.length - n)

/-- _build_activity_summary of operator_oversight.py. -/
def buildActivitySummary (st : OperatorState) (category : Str) : Str :=
  let solvedLines : List Str :=
    if st.successful_approaches.isEmpty then [] else
      (strLit "SOLVED (" ++ natStr st.successful_approaches.length ++
        strLit " groups so far):") ::
      (takeLast 5 st.successful_approaches).map (fun s =>
        strLit "  [" ++ s.category ++ strLit "] " ++ s.approach.take 120 ++
          strLit " -> solved " ++ intStr s.count)
  let cat_fails := st.failed_approaches.filter (fun f => f.category == category)
  let failLines : List Str :=
    if cat_fails.isEmpty then [] else
      (strLit "FAILED for " ++ category ++ strLit " tasks:") ::
      (takeLast 3 cat_fails).map (fun f => strLit "  " ++ f.approach.take 120)
  let other_fails := takeLast 2 (st.failed_approaches.filter (fun f => f.category != category))
  let otherLines : List Str :=
    if other_fails.isEmpty then [] else
      strLit "Other failed approaches:" ::
      other_fails.map (fun f =>
        strLit "  [" ++ f.category ++ strLit "] " ++ f.approach.take 80)
  List.intercalate (strLit "\n") (solvedLines ++ failLines ++ otherLines)

/-- The parsed body of a generation response: the primary text field and
the secondary reasoning field (empty when absent, matching the falsiness
test data.get("thinking") of the source). -/
structure RespBody where
  response : Str
  thinking : Str
deriving DecidableEq, Repr

/-- The observable outcome of the HTTP POST issued by _generate: a status
code plus a parsed JSON body, where body = none models a payload on which
resp.json() raises (malformed). -/
structure GenResponse where
  status : ℕ
  body : Option RespBody
deriving DecidableEq, Repr

/-- _generate of operator_oversight.py.  client is True when the httpx
client was initialized, False on the aiohttp fallback path; net = none
models a timeout or transport error (an exception inside the try block,
caught and turned into None).  The prompt and system arguments form the
outgoing payload and do not influence the modelled external response. -/
def generateRaw (client : Bool) (net : Option GenResponse)
    (prompt sysmsg : Str) : Option Str :=
  match net with
  | none => none
  | some r =>
    if client then
      if r.status = 200 then
        match r.body with
        | none => none
        | some d =>
          if d.response = [] ∧ d.thinking ≠ [] then some d.thinking
          else some d.response
      else none
    else
      if r.status = 200 then
        match r.body with
        | none => none
        | some d => some d.response
      else none

/-- The briefing prompt assembled by generate_briefing. -/
def buildPrompt (activity category : Str) (group_size : ℤ) (profile : Str) : Str :=
  strLit "You are the Operator coordinating research across multiple task groups.\n\nCurrent batch progress:\n" ++
    activity ++
    strLit "\n\nA new group is about to be researched:\n- Category: " ++
    category ++
    strLit "\n- Group size: " ++ intStr group_size ++
    strLit " tasks\n- Profile: " ++ profile.take 300 ++
    strLit "\n\nIn 2-3 sentences, suggest what the worker should consider:\n- What worked for similar tasks that might apply here?\n- What failed that should be avoided?\n- Any patterns you notice across groups?\n\nBe specific and concise. These are suggestions, not orders."

/-- The fixed system instruction passed by generate_briefing. -/
def operatorSystem : Str :=
  strLit "You are the Operator - an executive coordinator for AI research. Generate brief, specific suggestions to help workers avoid duplicating effort. Be direct and actionable."

/-- generate_briefing of operator_oversight.py, returning the briefing
text and the updated state (total_suggestions_made may be bumped). -/
def generate_briefing (st : OperatorState) (client : Bool)
    (net : Option GenResponse) (task_id category profile : Str)
    (group_size : ℤ) : Str × OperatorState :=
  if st.successful_approaches = [] ∧ st.failed_approaches = [] then ([], st)
  else
    let activity := buildActivitySummary st category
    if stripChars activity = [] then ([], st)
    else
      match generateRaw client net
          (buildPrompt activity category group_size profile) operatorSystem with
      | some b =>
        if b ≠ [] ∧ 20 < (stripChars b).length then
          (strLit "\n[Operator notes] " ++ stripChars b,
            { st with total_suggestions_made := st.total_suggestions_made + 1 })
        else ([], st)
      | none => ([], st)

/-- The tier-1 mechanical context block of get_context. -/
def mechText (st : OperatorState) (category : Str) : Str :=
  let relevant_successes := st.successful_approaches.filter (fun s => s.category == category)
  let successLines : List Str :=
    if relevant_successes.isEmpty then [] else
      strLit "Prior successes for similar tasks:" ::
      (relevant_successes.take 3).map (fun s =>
        strLit "  - " ++ s.approach.take 150 ++ strLit " (solved " ++
          intStr s.count ++ strLit ")")
  let cat_failures := st.failed_approaches.filter (fun f => f.category == category)
  let failureLines : List Str :=
    if cat_failures.isEmpty then [] else
      strLit "Prior failures (avoid):" ::
      (cat_failures.take 3).map (fun f => strLit "  - " ++ f.approach.take 100)
  List.intercalate (strLit "\n") (successLines ++ failureLines)

/-- get_context of operator_oversight.py: bump groups_processed, build the
tier-1 mechanical context, attempt the tier-2 briefing once at least two
approaches are recorded, and join the non-blank parts with a blank line. -/
def get_context (st : OperatorState) (client : Bool) (net : Option GenResponse)
    (task_id category profile : Str) (group_size : ℤ) : Str × OperatorState :=
  let st1 := { st with groups_processed := st.groups_processed + 1 }
  let mech_text := mechText st1 category
  let total_approaches :=
    st1.successful_approaches.length + st1.failed_approaches.length
  let res :=
    if 2 ≤ total_approaches then
      generate_briefing st1 client net task_id category profile group_size
    else ([], st1)
  let parts := [mech_text, res.1].filter (fun p => !(stripChars p).isEmpty)
  (List.intercalate (strLit "\n\n") parts, res.2)

/-! ## Launcher lemmas -/

/-- Sanity: the fallback lookup used by getSpec. -/
theorem lookup_qwen4b : MODELS.lookup "qwen3:4b" = some qwen4b := by
  simp [ MODELS, qwen4b, List.lookup]

theorem lookup_mem_snd {β : Type} {l : List (String × β)} {k : String} {v : β}
    (h : l.lookup k = some v) : v ∈ l.map Prod.snd := by
  induction l with
  | nil => simp [List.lookup] at h
  | cons a rest ih =>
    rw [List.lookup] at h
    by_cases hk : k == a.1
    · simp [hk] at h
      simp [← h]
    · simp [hk] at h
      simp [ih h]

theorem goodSpec_getSpec (n : String) : GoodSpec (getSpec n) := by
  cases h : MODELS.lookup n with
  | none =>
    refine ⟨25, 3, ?_, ?_⟩ <;> simp [getSpec, h, qwen4b] <;> norm_num
  | some v =>
    have hv := lookup_mem_snd h
    have hg : getSpec n = v := by simp [getSpec, h]
    rw [hg]
    simp only [ MODELS, List.map, List.mem_cons, List.not_mem_nil, or_false] at hv
    rcases hv with rfl|rfl|rfl|rfl|rfl|rfl|rfl|rfl|rfl|rfl|rfl|rfl
    · exact ⟨25, 3, by norm_num, by norm_num⟩
    · exact ⟨25, 3, by norm_num, by norm_num⟩
    · exact ⟨52, 5, by norm_num, by norm_num⟩
    · exact ⟨52, 5, by norm_num, by norm_num⟩
    · exact ⟨52, 5, by norm_num, by norm_num⟩
    · exact ⟨52, 5, by norm_num, by norm_num⟩
    · exact ⟨93, 8, by norm_num, by norm_num⟩
    · exact ⟨180, 12, by norm_num, by norm_num⟩
    · exact ⟨25, 3, by norm_num, by norm_num⟩
    · exact ⟨52, 5, by norm_num, by norm_num⟩
    · exact ⟨93, 8, by norm_num, by norm_num⟩
    · exact ⟨180, 12, by norm_num, by norm_num⟩

theorem model_memory_good (n : String) (p : ℕ) :
    ∃ c : ℕ, model_memory n p = (c : ℚ) / 10 := by
  obtain ⟨a, b, hb, hk⟩ := goodSpec_getSpec n
  refine ⟨a + p * b, ?_⟩
  rw [model_memory, hb, hk]
  push_cast
  ring

theorem model_memory_nonneg (n : String) (p : ℕ) : 0 ≤ model_memory n p := by
  obtain ⟨c, hc⟩ := model_memory_good n p
  rw [hc]
  positivity

theorem roundTenth_tenth (a : ℕ) : roundTenth ((a : ℚ) / 10) = (a : ℚ) / 10 := by
  have h10 : ((a : ℚ) / 10) * 10 = (a : ℚ) := by
    field_simp
  unfold roundTenth
  rw [h10]
  have hf : (⌊(a : ℚ)⌋ : ℤ) = (a : ℤ) := by
    exact_mod_cast Int.floor_natCast a
  rw [hf]
  norm_num

theorem roundTenth_model_memory (n : String) (p : ℕ) :
    roundTenth (model_memory n p) = model_memory n p := by
  obtain ⟨c, hc⟩ := model_memory_good n p
  rw [hc, roundTenth_tenth]

theorem scanSteps_some_spec {steps : List ℕ} (hs : steps.Pairwise (· > ·))
    {tp minp : ℕ} {name : String} {avail : ℚ} {p : ℕ}
    (h : scanSteps steps tp minp name avail = some p) :
    p ∈ steps ∧ p ≤ tp ∧ minp ≤ p ∧ model_memory name p ≤ avail ∧
      ∀ q ∈ steps, q ≤ tp → minp ≤ q → model_memory name q ≤ avail → q ≤ p := by
  induction steps with
  | nil => simp [scanSteps] at h
  | cons a rest ih =>
    have htail := hs.of_cons
    have hhead : ∀ b ∈ rest, a > b := fun b hb => List.rel_of_pairwise_cons hs hb
    rw [scanSteps] at h
    split_ifs at h with h1 h2 h3
    · obtain ⟨hm, htp, hmin, hav, hmax⟩ := ih htail h
      refine ⟨List.mem_cons_of_mem a hm, htp, hmin, hav, ?_⟩
      intro q hq hqtp hqmin hqav
      rcases List.mem_cons.mp hq with rfl | hq'
      · omega
      · exact hmax q hq' hqtp hqmin hqav
    · obtain rfl : a = p := Option.some.inj h
      refine ⟨List.mem_cons_self a rest, by omega, by omega, h3, ?_⟩
      intro q hq _ _ _
      rcases List.mem_cons.mp hq with rfl | hq'
      · exact le_refl q
      · exact le_of_lt (hhead q hq')
    · obtain ⟨hm, htp, hmin, hav, hmax⟩ := ih htail h
      refine ⟨List.mem_cons_of_mem a hm, htp, hmin, hav, ?_⟩
      intro q hq hqtp hqmin hqav
      rcases List.mem_cons.mp hq with rfl | hq'
      · exact absurd hqav h3
      · exact hmax q hq' hqtp hqmin hqav

theorem scanSteps_none_spec {steps : List ℕ} (hs : steps.Pairwise (· > ·))
    {tp minp : ℕ} {name : String} {avail : ℚ}
    (h : scanSteps steps tp minp name avail = none) :
    ∀ q ∈ steps, ¬(q ≤ tp ∧ minp ≤ q ∧ model_memory name q ≤ avail) := by
  induction steps with
  | nil => simp
  | cons a rest ih =>
    have htail := hs.of_cons
    have hhead : ∀ b ∈ rest, a > b := fun b hb => List.rel_of_pairwise_cons hs hb
    rw [scanSteps] at h
    split_ifs at h with h1 h2 h3
    · intro q hq hP
      rcases List.mem_cons.mp hq with rfl | hq'
      · omega
      · exact ih htail h q hq' hP
    · intro q hq hP
      rcases List.mem_cons.mp hq with rfl | hq'
      · omega
      · have := hhead q hq'
        omega
    · intro q hq hP
      rcases List.mem_cons.mp hq with rfl | hq'
      · exact h3 hP.2.2
      · exact ih htail h q hq' hP

theorem parallel_steps_sorted : PARALLEL_STEPS.Pairwise (· > ·) := by decide

theorem parallel_steps_pos : ∀ q ∈ PARALLEL_STEPS, 0 < q := by decide

theorem mem_dictInsert {κ β : Type} [DecidableEq κ] (l : List (κ × β))
    (k : κ) (v : β) : ∀ x ∈ dictInsert l k v, x ∈ l ∨ x = (k, v) := by
  induction l with
  | nil => simp [dictInsert]
  | cons a rest ih =>
    intro x hx
    rw [dictInsert] at hx
    split_ifs at hx with hk
    · rcases List.mem_cons.mp hx with rfl | hx'
      · exact Or.inr rfl
      · exact Or.inl (List.mem_cons_of_mem a hx')
    · rcases List.mem_cons.mp hx with rfl | hx'
      · exact Or.inl (List.mem_cons_self a rest)
      · rcases ih x hx' with h' | h'
        · exact Or.inl (List.mem_cons_of_mem a h')
        · exact Or.inr h'

theorem lookup_dictInsert_self {β : Type} (l : List (String × β)) (k : String)
    (v : β) : (dictInsert l k v).lookup k = some v := by
  induction l with
  | nil => simp [dictInsert, List.lookup]
  | cons a rest ih =>
    rw [dictInsert]
    split_ifs with hk
    · simp [List.lookup]
    · rw [List.lookup]
      have : (k == a.1) = false := by
        simp [BEq.beq]
        intro hkk
        exact hk hkk.symm
      rw [this]
      exact ih

theorem lookup_dictInsert_ne {β : Type} (l : List (String × β)) {k k' : String}
    (h : k' ≠ k) (v : β) : (dictInsert l k v).lookup k' = l.lookup k' := by
  have hb : (k' == k) = false := by
    simp only [beq_eq_false_iff_ne, ne_eq]
    exact h
  induction l with
  | nil =>
    simp [dictInsert, List.lookup, hb]
  | cons a rest ih =>
    rw [dictInsert]
    split_ifs with hk
    · subst hk
      rw [List.lookup, List.lookup, hb]
    · rw [List.lookup, List.lookup]
      cases hkk : (k' == a.1) with
      | true => rfl
      | false => exact ih

theorem sumMem_cons (a : String × AllocEntry) (l : List (String × AllocEntry)) :
    sumMem (a :: l) = a.2.memory_gb + sumMem l := by
  simp [sumMem]

theorem sumMem_dictInsert_le (l : List (String × AllocEntry)) (k : String)
    (v : AllocEntry) (hl : ∀ x ∈ l, 0 ≤ x.2.memory_gb) (hv : 0 ≤ v.memory_gb) :
    sumMem (dictInsert l k v) ≤ sumMem l + v.memory_gb := by
  induction l with
  | nil => simp [dictInsert, sumMem]
  | cons a rest ih =>
    rw [dictInsert]
    split_ifs with hk
    · rw [sumMem_cons, sumMem_cons]
      have ha : 0 ≤ a.2.memory_gb := hl a (List.mem_cons_self a rest)
      linarith
    · rw [sumMem_cons, sumMem_cons]
      have := ih fun x hx => hl x (List.mem_cons_of_mem a hx)
      linarith

theorem allocStep_inv {hw : Hardware} {minp : ℕ} {B : ℚ} {st : AllocState}
    {x : String × ModelSpec} (h : AllocInv B st) :
    AllocInv B (allocStep hw minp st x) := by
  obtain ⟨h0, hsum, hnn⟩ := h
  simp only [allocStep]
  cases hscan : scanSteps PARALLEL_STEPS
      (targetParallel x.2.tier hw.peak_parallel hw.max_parallel minp) minp x.1
      st.available with
  | some p =>
    obtain ⟨_, _, _, hav, _⟩ := scanSteps_some_spec parallel_steps_sorted hscan
    have hmn := model_memory_nonneg x.1 p
    have hrt := roundTenth_model_memory x.1 p
    have hent : (0:ℚ) ≤ roundTenth (model_memory x.1 p) := by
      rw [hrt]
      exact hmn
    have hins := sumMem_dictInsert_le st.alloc x.1
      ⟨p, roundTenth (model_memory x.1 p), x.2.tier, x.2.source, none⟩ hnn hent
    refine ⟨?_, ?_, ?_⟩
    · show (0:ℚ) ≤ st.available - model_memory x.1 p
      linarith
    · show sumMem (dictInsert st.alloc x.1
          ⟨p, roundTenth (model_memory x.1 p), x.2.tier, x.2.source, none⟩) +
          (st.available - model_memory x.1 p) ≤ B
      have hproj : (⟨p, roundTenth (model_memory x.1 p), x.2.tier, x.2.source,
          none⟩ : AllocEntry).memory_gb = model_memory x.1 p := hrt
      rw [hproj] at hins
      linarith
    · intro y hy
      rcases mem_dictInsert st.alloc x.1 _ y hy with h1 | h1
      · exact hnn y h1
      · rw [h1]
        exact hent
  | none =>
    have hins := sumMem_dictInsert_le st.alloc x.1
      ⟨0, 0, x.2.tier, x.2.source, some "skipped"⟩ hnn le_rfl
    refine ⟨h0, ?_, ?_⟩
    · show sumMem (dictInsert st.alloc x.1
          ⟨0, 0, x.2.tier, x.2.source, some "skipped"⟩) + st.available ≤ B
      have hz : sumMem st.alloc +
          (⟨0, 0, x.2.tier, x.2.source, some "skipped"⟩ : AllocEntry).memory_gb =
          sumMem st.alloc := by
        show sumMem st.alloc + 0 = sumMem st.alloc
        ring
      rw [hz] at hins
      linarith
    · intro y hy
      rcases mem_dictInsert st.alloc x.1 _ y hy with h1 | h1
      · exact hnn y h1
      · rw [h1]

theorem foldl_allocStep_inv {hw : Hardware} {minp : ℕ} {B : ℚ}
    (l : List (String × ModelSpec)) (st : AllocState) (h : AllocInv B st) :
    AllocInv B (l.foldl (allocStep hw minp) st) := by
  induction l generalizing st with
  | nil => exact h
  | cons a rest ih => exact ih _ (allocStep_inv h)

/-! ## Claim theorems for the allocation engine -/

/-- Claim C1: for every model list and every hardware descriptor with
nonnegative total memory and reserve fraction between 0 and 1, the sum of
memory_gb over all entries of the map returned by allocate_stack never
exceeds total_memory_gb * (1 - reserve_fraction). -/
theorem allocate_stack_memory_bound (models : List String) (hw : Hardware)
    (minp : ℕ) (h0 : 0 ≤ hw.gpu_mem_gb) (h1 : 0 ≤ hw.reserve_pct)
    (h2 : hw.reserve_pct ≤ 1) :
    sumMem (allocate_stack models hw minp) ≤
      hw.gpu_mem_gb * (1 - hw.reserve_pct) := by
  have hB : (0:ℚ) ≤ availBudget hw := by
    unfold availBudget
    have h3 : (0:ℚ) ≤ 1 - hw.reserve_pct := by linarith
    exact mul_nonneg h0 h3
  have hinit : AllocInv (availBudget hw) ⟨[], availBudget hw⟩ := by
    refine ⟨hB, ?_, by simp⟩
    show sumMem [] + availBudget hw ≤ availBudget hw
    simp [sumMem]
  have hinv := @foldl_allocStep_inv hw minp (availBudget hw) (sortSpecs models)
    ⟨[], availBudget hw⟩ hinit
  obtain ⟨ha, hs, _⟩ := hinv
  have hfin : sumMem (allocate_stack models hw minp) ≤ availBudget hw := by
    unfold allocate_stack allocateFull
    linarith
  unfold availBudget at hfin
  exact hfin

/-- Witness for C1 at a concrete input. -/
theorem allocate_stack_memory_bound_witness :
    (0:ℚ) ≤ 24 ∧ (0:ℚ) ≤ 0.2 ∧ (0.2:ℚ) ≤ 1 ∧
    sumMem (allocate_stack ["executive", "coder"] ⟨24, 0.2, 4, 8⟩ 1) ≤
      24 * (1 - 0.2) :=
  ⟨by norm_num, by norm_num, by norm_num,
    allocate_stack_memory_bound ["executive", "coder"] ⟨24, 0.2, 4, 8⟩ 1
      (by norm_num) (by norm_num) (by norm_num)⟩

/-- Claim C2: for every model processed, the committed degree is the largest
member of PARALLEL_STEPS not exceeding the tier-derived clamped target, not
below min_parallel, whose required memory base + degree * per_slot fits the
remaining budget; that memory is subtracted from the remaining budget.  In
particular, on hardware total 24, reserve 0.2, peak 4, max 8, one tier-1
model with base 2.5 and per-slot 0.3 gets degree 4 and memory 3.7 with 15.5
remaining. -/
theorem allocate_degree_choice :
    (∀ (tp minp : ℕ) (name : String) (avail : ℚ) (p : ℕ),
      scanSteps PARALLEL_STEPS tp minp name avail = some p →
        p ∈ PARALLEL_STEPS ∧ p ≤ tp ∧ minp ≤ p ∧ model_memory name p ≤ avail ∧
        ∀ q ∈ PARALLEL_STEPS, q ≤ tp → minp ≤ q →
          model_memory name q ≤ avail → q ≤ p)
  ∧ (∀ (hw : Hardware) (minp : ℕ) (st : AllocState) (x : String × ModelSpec)
        (p : ℕ),
      scanSteps PARALLEL_STEPS
          (targetParallel x.2.tier hw.peak_parallel hw.max_parallel minp)
          minp x.1 st.available = some p →
        (allocStep hw minp st x).available = st.available - model_memory x.1 p ∧
        (allocStep hw minp st x).alloc = dictInsert st.alloc x.1
          ⟨p, roundTenth (model_memory x.1 p), x.2.tier, x.2.source, none⟩)
  ∧ allocateFull ["executive"] ⟨24, 0.2, 4, 8⟩ 1 =
      ⟨[("executive", ⟨4, 3.7, 1, "qwen3:4b", none⟩)], 15.5⟩ := by
  refine ⟨?_, ?_, ?_⟩
  · intro tp minp name avail p h
    exact scanSteps_some_spec parallel_steps_sorted h
  · intro hw minp st x p hsc
    simp only [allocStep]
    rw [hsc]
    exact ⟨rfl, rfl⟩
  · norm_num [allocateFull, sortSpecs, getSpec, MODELS, qwen4b, availBudget,
      allocStep, targetParallel, scanSteps, PARALLEL_STEPS, model_memory,
      dictInsert, roundTenth, List.insertionSort, List.lookup]

/-- Witness for C2: the scan hypothesis discharged on the concrete example
of the claim. -/
theorem allocate_degree_choice_witness :
    scanSteps PARALLEL_STEPS 4 1 "executive" 19.2 = some 4 ∧
    (4 ∈ PARALLEL_STEPS ∧ 4 ≤ 4 ∧ 1 ≤ 4 ∧
      model_memory "executive" 4 ≤ 19.2 ∧
      ∀ q ∈ PARALLEL_STEPS, q ≤ 4 → 1 ≤ q →
        model_memory "executive" q ≤ 19.2 → q ≤ 4) :=
  ⟨by norm_num [scanSteps, PARALLEL_STEPS, model_memory, getSpec, MODELS,
      qwen4b, List.lookup],
   allocate_degree_choice.1 4 1 "executive" 19.2 4
     (by norm_num [scanSteps, PARALLEL_STEPS, model_memory, getSpec, MODELS,
       qwen4b, List.lookup])⟩

theorem sortSpecs_map_fst_perm (models : List String) :
    ((sortSpecs models).map Prod.fst).Perm models := by
  have h2 : ∀ t : List String, ((t.map fun m => (m, getSpec m)).map Prod.fst) = t := by
    intro t
    induction t with
    | nil => rfl
    | cons a t2 ih => simp only [List.map_cons] at ih ⊢; rw [ih]
  have hperm := List.perm_insertionSort tierLe (models.map fun m => (m, getSpec m))
  have h3 := hperm.map Prod.fst
  rw [h2 models] at h3
  exact h3

theorem allocStep_lookup_frame (hw : Hardware) (minp : ℕ) (st : AllocState)
    (x : String × ModelSpec) {k : String} (hk : k ≠ x.1) :
    ((allocStep hw minp st x).alloc).lookup k = st.alloc.lookup k := by
  simp only [allocStep]
  cases scanSteps PARALLEL_STEPS
      (targetParallel x.2.tier hw.peak_parallel hw.max_parallel minp) minp x.1
      st.available with
  | some p => exact lookup_dictInsert_ne st.alloc hk _
  | none => exact lookup_dictInsert_ne st.alloc hk _

theorem foldl_lookup_frame (hw : Hardware) (minp : ℕ) :
    ∀ (post : List (String × ModelSpec)) (st : AllocState) (k : String),
      k ∉ post.map Prod.fst →
      ((post.foldl (allocStep hw minp) st).alloc).lookup k = st.alloc.lookup k := by
  intro post
  induction post with
  | nil => intro st k _; rfl
  | cons a rest ih =>
    intro st k hk
    simp only [List.map_cons, List.mem_cons, not_or] at hk
    rw [List.foldl_cons, ih _ k hk.2]
    exact allocStep_lookup_frame hw minp st a hk.1

/-- Claim C3: allocate_stack processes models in ascending tier order.  The
processing list is a permutation of the input sorted by tier, the run
decomposes around every position as committing that model's allocation
before any later (lower-priority) model is considered, and, whenever a
model's name is not written again by a later model, its final entry is
exactly the one committed at its own turn, unaffected by later models. -/
theorem allocate_priority_order (models : List String) (hw : Hardware)
    (minp : ℕ) :
    ((sortSpecs models).map Prod.fst).Perm models
  ∧ List.Sorted tierLe (sortSpecs models)
  ∧ (∀ (pre post : List (String × ModelSpec)) (x : String × ModelSpec),
      sortSpecs models = pre ++ x :: post →
      allocateFull models hw minp =
        post.foldl (allocStep hw minp)
          (allocStep hw minp
            (pre.foldl (allocStep hw minp) ⟨[], availBudget hw⟩) x))
  ∧ (∀ (pre post : List (String × ModelSpec)) (x : String × ModelSpec),
      sortSpecs models = pre ++ x :: post →
      x.1 ∉ post.map Prod.fst →
      (allocate_stack models hw minp).lookup x.1 =
        ((allocStep hw minp
          (pre.foldl (allocStep hw minp) ⟨[], availBudget hw⟩) x).alloc).lookup
          x.1) := by
  have h3 : ∀ (pre post : List (String × ModelSpec)) (x : String × ModelSpec),
      sortSpecs models = pre ++ x :: post →
      allocateFull models hw minp =
        post.foldl (allocStep hw minp)
          (allocStep hw minp
            (pre.foldl (allocStep hw minp) ⟨[], availBudget hw⟩) x) := by
    intro pre post x heq
    rw [allocateFull, heq, List.foldl_append, List.foldl_cons]
  refine ⟨sortSpecs_map_fst_perm models,
    List.sorted_insertionSort tierLe (models.map fun m => (m, getSpec m)),
    h3, ?_⟩
  intro pre post x heq hnot
  rw [allocate_stack, h3 pre post x heq]
  exact foldl_lookup_frame hw minp post _ x.1 hnot

/-- Witness for C3: the decomposition hypotheses discharged on a concrete
two-model run. -/
theorem allocate_priority_order_witness :
    sortSpecs ["coder", "executive"] =
      [("executive", ⟨2.5, 0.3, 1, "qwen3:4b"⟩)] ++
        ("coder", ⟨9.3, 0.8, 3, "qwen3:14b"⟩) :: [] ∧
    ("coder" ∉ (([] : List (String × ModelSpec)).map Prod.fst)) ∧
    (allocate_stack ["coder", "executive"] ⟨24, 0.2, 4, 8⟩ 1).lookup "coder" =
      ((allocStep ⟨24, 0.2, 4, 8⟩ 1
        ([("executive", ⟨2.5, 0.3, 1, "qwen3:4b"⟩)].foldl
          (allocStep ⟨24, 0.2, 4, 8⟩ 1) ⟨[], availBudget ⟨24, 0.2, 4, 8⟩⟩)
        ("coder", ⟨9.3, 0.8, 3, "qwen3:14b"⟩)).alloc).lookup "coder" := by
  have hc : getSpec "coder" = ⟨9.3, 0.8, 3, "qwen3:14b"⟩ := by
    simp [getSpec, MODELS, List.lookup]
  have he : getSpec "executive" = ⟨2.5, 0.3, 1, "qwen3:4b"⟩ := by
    simp [getSpec, MODELS, List.lookup]
  have hsort : sortSpecs ["coder", "executive"] =
      [("executive", ⟨2.5, 0.3, 1, "qwen3:4b"⟩)] ++
        ("coder", ⟨9.3, 0.8, 3, "qwen3:14b"⟩) :: [] := by
    simp [sortSpecs, List.insertionSort, List.orderedInsert, tierLe, hc, he]
  exact ⟨hsort, by simp,
    (allocate_priority_order ["coder", "executive"] ⟨24, 0.2, 4, 8⟩ 1).2.2.2
      [("executive", ⟨2.5, 0.3, 1, "qwen3:4b"⟩)] []
      ("coder", ⟨9.3, 0.8, 3, "qwen3:14b"⟩) hsort (by simp)⟩

theorem allocStep_lookup_self (hw : Hardware) (minp : ℕ) (st : AllocState)
    (x : String × ModelSpec) :
    ∃ e, ((allocStep hw minp st x).alloc).lookup x.1 = some e ∧ EntryReport e := by
  simp only [allocStep]
  cases hscan : scanSteps PARALLEL_STEPS
      (targetParallel x.2.tier hw.peak_parallel hw.max_parallel minp) minp x.1
      st.available with
  | some p =>
    refine ⟨⟨p, roundTenth (model_memory x.1 p), x.2.tier, x.2.source, none⟩,
      lookup_dictInsert_self st.alloc x.1 _, Or.inl ?_⟩
    exact parallel_steps_pos p (scanSteps_some_spec parallel_steps_sorted hscan).1
  | none =>
    exact ⟨⟨0, 0, x.2.tier, x.2.source, some "skipped"⟩,
      lookup_dictInsert_self st.alloc x.1 _, Or.inr ⟨rfl, rfl, rfl⟩⟩

theorem allocStep_preserves_report (hw : Hardware) (minp : ℕ) (st : AllocState)
    (x : String × ModelSpec) (k : String)
    (h : ∃ e, (st.alloc.lookup k) = some e ∧ EntryReport e) :
    ∃ e, ((allocStep hw minp st x).alloc).lookup k = some e ∧ EntryReport e := by
  by_cases hk : k = x.1
  · subst hk
    exact allocStep_lookup_self hw minp st x
  · rw [allocStep_lookup_frame hw minp st x hk]
    exact h

theorem foldl_preserves_report (hw : Hardware) (minp : ℕ) :
    ∀ (l : List (String × ModelSpec)) (st : AllocState) (k : String),
      (∃ e, (st.alloc.lookup k) = some e ∧ EntryReport e) →
      ∃ e, ((l.foldl (allocStep hw minp) st).alloc).lookup k = some e ∧
        EntryReport e := by
  intro l
  induction l with
  | nil => intro st k h; exact h
  | cons a rest ih =>
    intro st k h
    rw [List.foldl_cons]
    exact ih _ k (allocStep_preserves_report hw minp st a k h)

theorem foldl_establishes_report (hw : Hardware) (minp : ℕ) :
    ∀ (l : List (String × ModelSpec)) (st : AllocState) (k : String),
      k ∈ l.map Prod.fst →
      ∃ e, ((l.foldl (allocStep hw minp) st).alloc).lookup k = some e ∧
        EntryReport e := by
  intro l
  induction l with
  | nil => intro st k h; simp at h
  | cons a rest ih =>
    intro st k h
    rw [List.map_cons, List.mem_cons] at h
    rw [List.foldl_cons]
    rcases h with rfl | h'
    · exact foldl_preserves_report hw minp rest _ a.1
        (allocStep_lookup_self hw minp st a)
    · exact ih _ k h'

/-- Claim C4: allocate_stack is total and its returned map reports an
outcome for every model of the input list: an entry with a positive degree,
or an entry with degree 0, memory 0 and status skipped. -/
theorem allocate_reports_every_model (models : List String) (hw : Hardware)
    (minp : ℕ) : ∀ m ∈ models,
    ∃ e, (allocate_stack models hw minp).lookup m = some e ∧
      (0 < e.parallel ∨
        (e.parallel = 0 ∧ e.memory_gb = 0 ∧ e.status = some "skipped")) := by
  intro m hm
  have hmem : m ∈ (sortSpecs models).map Prod.fst :=
    ((sortSpecs_map_fst_perm models).mem_iff).mpr hm
  exact foldl_establishes_report hw minp (sortSpecs models) ⟨[], availBudget hw⟩
    m hmem

/-- Witness for C4 at a concrete model list. -/
theorem allocate_reports_every_model_witness :
    "architect" ∈ ["architect"] ∧
    ∃ e, (allocate_stack ["architect"] ⟨24, 0.2, 4, 8⟩ 1).lookup "architect" =
        some e ∧
      (0 < e.parallel ∨
        (e.parallel = 0 ∧ e.memory_gb = 0 ∧ e.status = some "skipped")) :=
  ⟨by simp,
    allocate_reports_every_model ["architect"] ⟨24, 0.2, 4, 8⟩ 1 "architect"
      (by simp)⟩

theorem scanSteps_congr {n1 n2 : String}
    (h : ∀ p, model_memory n1 p = model_memory n2 p) (steps : List ℕ)
    (tp minp : ℕ) (avail : ℚ) :
    scanSteps steps tp minp n1 avail = scanSteps steps tp minp n2 avail := by
  induction steps with
  | nil => rfl
  | cons a rest ih => rw [scanSteps, scanSteps, h a, ih]

/-- Claim C5: for a model name missing from the catalog, allocate_stack
substitutes the documented default spec (base 2.5, 0.3 per slot, tier 1,
backed by qwen3:4b) and allocates it exactly like the catalogued qwen3:4b
row. -/
theorem allocate_unknown_model_default (m : String) (hw : Hardware)
    (minp : ℕ) (hm : MODELS.lookup m = none) :
    getSpec m = ⟨2.5, 0.3, 1, "qwen3:4b"⟩
  ∧ (allocate_stack [m] hw minp).lookup m =
      (allocate_stack ["qwen3:4b"] hw minp).lookup "qwen3:4b" := by
  have hq4 : getSpec "qwen3:4b" = qwen4b := by
    rw [getSpec, lookup_qwen4b]
    rfl
  have hgs : getSpec m = qwen4b := by
    rw [getSpec, hm]
    rfl
  have hgoal2 : (allocate_stack [m] hw minp).lookup m =
      (allocate_stack ["qwen3:4b"] hw minp).lookup "qwen3:4b" := by
    have hmm : ∀ p, model_memory m p = model_memory "qwen3:4b" p := by
      intro p
      rw [model_memory, model_memory, hgs, hq4]
    have hsm : sortSpecs [m] = [(m, qwen4b)] := by
      simp [sortSpecs, List.insertionSort, List.orderedInsert, hgs]
    have hsq : sortSpecs ["qwen3:4b"] = [("qwen3:4b", qwen4b)] := by
      simp [sortSpecs, List.insertionSort, List.orderedInsert, hq4]
    rw [allocate_stack, allocateFull, hsm, allocate_stack, allocateFull, hsq,
      List.foldl_cons, List.foldl_nil, List.foldl_cons, List.foldl_nil]
    simp only [allocStep]
    rw [scanSteps_congr hmm]
    cases scanSteps PARALLEL_STEPS
        (targetParallel qwen4b.tier hw.peak_parallel hw.max_parallel minp) minp
        "qwen3:4b" (availBudget hw) with
    | some p =>
      rw [lookup_dictInsert_self, lookup_dictInsert_self]
      rw [roundTenth_model_memory m p, roundTenth_model_memory "qwen3:4b" p,
        hmm p]
    | none =>
      rw [lookup_dictInsert_self, lookup_dictInsert_self]
  constructor
  · rw [hgs]
    rfl
  · exact hgoal2

/-- Witness for C5: a name absent from the catalog. -/
theorem allocate_unknown_model_default_witness :
    MODELS.lookup "ghost" = none ∧
    (getSpec "ghost" = ⟨2.5, 0.3, 1, "qwen3:4b"⟩ ∧
      (allocate_stack ["ghost"] ⟨24, 0.2, 4, 8⟩ 1).lookup "ghost" =
        (allocate_stack ["qwen3:4b"] ⟨24, 0.2, 4, 8⟩ 1).lookup "qwen3:4b") :=
  ⟨by simp [ MODELS, List.lookup],
    allocate_unknown_model_default "ghost" ⟨24, 0.2, 4, 8⟩ 1
      (by simp [ MODELS, List.lookup])⟩

/-! ## Claim theorems for the oversight coordinator -/

/-- Claim C6: truncation caps are applied at write time and stored text
never exceeds its cap: record_success stores the approach at length
min 400 len and the profile within 400, record_failure stores the approach
at length min 300 len, observe stores detail within 300, record_profile
stores profiles within 500; in particular input lengths 399, 400, 401 give
stored lengths 399, 400, 400 for record_success. -/
theorem truncation_caps (st : OperatorState)
    (c a p tid stg mdl det now prof : Str) (cnt : ℤ) :
    (∃ e : SuccessRecord,
      (record_success st c a cnt p).successful_approaches =
        st.successful_approaches ++ [e] ∧
      e.approach.length = min 400 a.length ∧ e.approach.length ≤ 400 ∧
      e.profile.length ≤ 400)
  ∧ (∃ f : FailureRecord,
      (record_failure st c a).failed_approaches =
        st.failed_approaches ++ [f] ∧
      f.approach.length = min 300 a.length ∧ f.approach.length ≤ 300)
  ∧ (∃ ev : ActivityEvent,
      (observe st tid stg mdl c det now).activity_log =
        st.activity_log ++ [ev] ∧ ev.detail.length ≤ 300)
  ∧ (∀ q ∈ (record_profile st tid prof).active_profiles,
      q ∈ st.active_profiles ∨ q.2.length ≤ 500)
  ∧ (min 400 399 = 399 ∧ min 400 400 = 400 ∧ min 400 401 = 400) := by
  refine ⟨⟨⟨c, a.take 400, p.take 400, cnt⟩, rfl, ?_, ?_, ?_⟩,
    ⟨⟨c, a.take 300⟩, rfl, ?_, ?_⟩,
    ⟨⟨tid, stg, mdl, c, det.take 300, now⟩, rfl, ?_⟩, ?_, by omega, by omega,
    by omega⟩
  · exact List.length_take 400 a
  · rw [List.length_take]
    omega
  · rw [List.length_take]
    omega
  · exact List.length_take 300 a
  · rw [List.length_take]
    omega
  · show (det.take 300).length ≤ 300
    rw [List.length_take]
    omega
  · intro q hq
    rcases mem_dictInsert st.active_profiles tid (prof.take 500) q hq with h | h
    · exact Or.inl h
    · refine Or.inr ?_
      rw [h]
      show (prof.take 500).length ≤ 500
      rw [List.length_take]
      omega

/-- Witness for C6 at a concrete state and input texts. -/
theorem truncation_caps_witness :
    (∃ e : SuccessRecord,
      (record_success ⟨[], [], [], [], 0, 0⟩ [] (List.replicate 401 'x') 1
        []).successful_approaches = [] ++ [e] ∧
      e.approach.length = min 400 (List.replicate 401 'x').length ∧
      e.approach.length ≤ 400 ∧ e.profile.length ≤ 400)
  ∧ (∃ f : FailureRecord,
      (record_failure ⟨[], [], [], [], 0, 0⟩ [] (List.replicate 401 'x')
        ).failed_approaches = [] ++ [f] ∧
      f.approach.length = min 300 (List.replicate 401 'x').length ∧
      f.approach.length ≤ 300)
  ∧ (∃ ev : ActivityEvent,
      (observe ⟨[], [], [], [], 0, 0⟩ [] [] [] [] (List.replicate 401 'x')
        []).activity_log = [] ++ [ev] ∧ ev.detail.length ≤ 300)
  ∧ (∀ q ∈ (record_profile ⟨[], [], [], [], 0, 0⟩ []
        (List.replicate 401 'x')).active_profiles,
      q ∈ ([] : List (Str × Str)) ∨ q.2.length ≤ 500)
  ∧ (min 400 399 = 399 ∧ min 400 400 = 400 ∧ min 400 401 = 400) :=
  truncation_caps ⟨[], [], [], [], 0, 0⟩ [] (List.replicate 401 'x') [] [] []
    [] (List.replicate 401 'x') [] (List.replicate 401 'x') 1

/-- Claim C7: get_context returns the empty string whenever no successes
and no failures are recorded, whatever the activity log, profile cache,
counters, category or profile inputs are. -/
theorem get_context_empty_without_records (st : OperatorState) (client : Bool)
    (net : Option GenResponse) (tid cat prof : Str) (gs : ℤ)
    (hs : st.successful_approaches = []) (hf : st.failed_approaches = []) :
    (get_context st client net tid cat prof gs).1 = [] := by
  have hst : st =
      { st with successful_approaches := ([] : List SuccessRecord), failed_approaches := ([] : List FailureRecord) } := by
    rw [← hs, ← hf]
  rw [hst]
  rfl

/-- Witness for C7 on the fresh state. -/
theorem get_context_empty_without_records_witness :
    (⟨[], [], [], [], 0, 0⟩ : OperatorState).successful_approaches = [] ∧
    (⟨[], [], [], [], 0, 0⟩ : OperatorState).failed_approaches = [] ∧
    (get_context ⟨[], [], [], [], 0, 0⟩ true none [] [] [] 1).1 = [] :=
  ⟨rfl, rfl,
    get_context_empty_without_records ⟨[], [], [], [], 0, 0⟩ true none [] [] []
      1 rfl rfl⟩

theorem stripChars_ne_nil {s : Str} {c : Char} (hc : c ∈ s)
    (hw2 : ¬ c.isWhitespace) : stripChars s ≠ [] := by
  intro h
  unfold stripChars at h
  rw [List.reverse_eq_nil_iff, List.dropWhile_eq_nil_iff] at h
  have hc2 : c ∈ s.dropWhile Char.isWhitespace := by
    have hsplit : s.takeWhile Char.isWhitespace ++
        s.dropWhile Char.isWhitespace = s :=
      List.takeWhile_append_dropWhile _ _
    rw [← hsplit] at hc
    rcases List.mem_append.mp hc with h1 | h1
    · exact absurd (List.mem_takeWhile_imp h1) hw2
    · exact h1
  exact hw2 (h c (List.mem_reverse.mpr hc2))

theorem intercalate_cons_exists {α : Type} (sep x : List α)
    (rest : List (List α)) :
    ∃ t, List.intercalate sep (x :: rest) = x ++ t := by
  cases rest with
  | nil =>
    refine ⟨[], ?_⟩
    simp [List.intercalate, List.intersperse]
  | cons b bs =>
    refine ⟨sep ++ List.intercalate sep (b :: bs), ?_⟩
    simp [List.intercalate, List.intersperse, List.append_assoc]

theorem mem_intercalate_head {α : Type} {sep x : List α}
    {rest : List (List α)} {c : α} (hc : c ∈ x) :
    c ∈ List.intercalate sep (x :: rest) := by
  obtain ⟨t, ht⟩ := intercalate_cons_exists sep x rest
  rw [ht]
  exact List.mem_append_left t hc

theorem summary_nonblank (st : OperatorState) (cat : Str)
    (h : st.successful_approaches ≠ [] ∨ st.failed_approaches ≠ []) :
    stripChars (buildActivitySummary st cat) ≠ [] := by
  simp only [buildActivitySummary]
  by_cases hs : st.successful_approaches.isEmpty
  · have hf : st.failed_approaches ≠ [] := by
      rcases h with h | h
      · exact absurd (List.isEmpty_iff.mp hs) h
      · exact h
    rw [if_pos hs]
    by_cases hcf : (st.failed_approaches.filter
        (fun f => f.category == cat)).isEmpty
    · have hof : ¬ (takeLast 2 (st.failed_approaches.filter
          (fun f => f.category != cat))).isEmpty := by
        have hall : st.failed_approaches.filter (fun f => f.category != cat) =
            st.failed_approaches := by
          rw [List.filter_eq_self]
          intro f hfm
          have hnot := List.isEmpty_iff.mp hcf
          rw [List.filter_eq_nil_iff] at hnot
          have := hnot f hfm
          simp only [bne_iff_ne, ne_eq]
          simp only [beq_iff_eq] at this
          exact this
        rw [hall]
        unfold takeLast
        rw [List.isEmpty_iff]
        intro hdrop
        rw [List.drop_eq_nil_iff] at hdrop
        have hlen : 0 < st.failed_approaches.length :=
          List.length_pos.mpr hf
        omega
      rw [if_pos hcf, if_neg hof]
      apply stripChars_ne_nil (c := 'O')
      · apply mem_intercalate_head
        simp [strLit]
      · decide
    · rw [if_neg hcf]
      apply stripChars_ne_nil (c := 'F')
      · apply mem_intercalate_head
        simp [strLit]
      · decide
  · rw [if_neg hs]
    apply stripChars_ne_nil (c := 'S')
    · apply mem_intercalate_head
      simp [strLit]
    · decide

/-- Claim C8: the tier-2 briefing is never attempted while fewer than two
approaches are recorded (the result is then independent of the transport
and the suggestion counter is unchanged); once at least two are recorded
the briefing is attempted, its early-return guards cannot fire, and it
contributes exactly when the returned text is nonempty with stripped
length above 20, in which case total_suggestions_made is bumped and the
text carries the fixed advisory marker. -/
theorem briefing_gate (st : OperatorState) (client : Bool)
    (net : Option GenResponse) (tid cat prof : Str) (gs : ℤ) :
    (st.successful_approaches.length + st.failed_approaches.length < 2 →
      (∀ (client2 : Bool) (net2 : Option GenResponse),
        get_context st client net tid cat prof gs =
          get_context st client2 net2 tid cat prof gs) ∧
      (get_context st client net tid cat prof gs).2.total_suggestions_made =
        st.total_suggestions_made)
  ∧ (2 ≤ st.successful_approaches.length + st.failed_approaches.length →
      generate_briefing st client net tid cat prof gs =
        match generateRaw client net
            (buildPrompt (buildActivitySummary st cat) cat gs prof)
            operatorSystem with
        | some b =>
          if b ≠ [] ∧ 20 < (stripChars b).length then
            (strLit "\n[Operator notes] " ++ stripChars b,
              { st with total_suggestions_made :=
                st.total_suggestions_made + 1 })
          else ([], st)
        | none => ([], st))
  ∧ (2 ≤ st.successful_approaches.length + st.failed_approaches.length →
      get_context st client net tid cat prof gs =
        (List.intercalate (strLit "\n\n")
          ([mechText st cat,
            (generate_briefing
              { st with groups_processed := st.groups_processed + 1 }
              client net tid cat prof gs).1].filter
            (fun p => !(stripChars p).isEmpty)),
         (generate_briefing
           { st with groups_processed := st.groups_processed + 1 }
           client net tid cat prof gs).2)) := by
  refine ⟨?_, ?_, ?_⟩
  · intro h
    have hneg : ¬ (2 ≤ st.successful_approaches.length +
        st.failed_approaches.length) := by omega
    constructor
    · intro client2 net2
      simp only [get_context]
      rw [if_neg hneg, if_neg hneg]
    · simp only [get_context]
      rw [if_neg hneg]
  · intro h
    have h1 : ¬ (st.successful_approaches = [] ∧
        st.failed_approaches = []) := by
      rintro ⟨ha, hb⟩
      rw [ha, hb] at h
      simp at h
    have h2 : stripChars (buildActivitySummary st cat) ≠ [] := by
      apply summary_nonblank
      by_cases hcase : st.successful_approaches = []
      · refine Or.inr ?_
        intro hb
        rw [hcase, hb] at h
        simp at h
      · exact Or.inl hcase
    rw [generate_briefing, if_neg h1, if_neg h2]
  · intro h
    simp only [get_context]
    rw [if_pos h]
    rfl

/-- Witness for C8: the gate hypotheses discharged on concrete states, with
the attempted briefing collapsing to empty output on a failed transport. -/
theorem briefing_gate_witness :
    ((⟨[], [], [], [], 0, 0⟩ : OperatorState).successful_approaches.length +
      (⟨[], [], [], [], 0, 0⟩ : OperatorState).failed_approaches.length < 2) ∧
    (get_context ⟨[], [], [], [], 0, 0⟩ true none [] [] []
      1).2.total_suggestions_made = 0 ∧
    (2 ≤ (⟨[], [], [⟨[], []⟩, ⟨[], []⟩], [], 0, 0⟩ :
      OperatorState).successful_approaches.length +
      (⟨[], [], [⟨[], []⟩, ⟨[], []⟩], [], 0, 0⟩ :
        OperatorState).failed_approaches.length) ∧
    generate_briefing ⟨[], [], [⟨[], []⟩, ⟨[], []⟩], [], 0, 0⟩ true none [] []
      [] 1 = ([], ⟨[], [], [⟨[], []⟩, ⟨[], []⟩], [], 0, 0⟩) := by
  refine ⟨by decide, ?_, by decide, ?_⟩
  · exact ((briefing_gate ⟨[], [], [], [], 0, 0⟩ true none [] [] [] 1).1
      (by decide)).2
  · have h := (briefing_gate ⟨[], [], [⟨[], []⟩, ⟨[], []⟩], [], 0, 0⟩ true none
      [] [] [] 1).2.1 (by decide)
    simpa [generateRaw] using h

/-- Claim C9 counterexample: on the aiohttp fallback path (no httpx client),
a 200 response whose primary text is empty and whose reasoning field is
nonempty makes the generator return the empty primary text, not the
reasoning text, contradicting the unconditional fallback of the claim. -/
theorem generate_no_reasoning_fallback_aiohttp :
    generateRaw false (some ⟨200, some ⟨[], ['x']⟩⟩) [] [] = some [] ∧
    (['x'] : Str) ≠ [] ∧
    generateRaw false (some ⟨200, some ⟨[], ['x']⟩⟩) [] [] ≠ some ['x'] := by
  refine ⟨rfl, by decide, ?_⟩
  intro h
  have : some ([] : Str) = some ['x'] := h
  simp at this

/-- Claim C9 amended: the generator never propagates a failure upward
(timeout or transport error, a non-200 status, and a malformed payload all
yield none); the reasoning-field fallback applies on the httpx path, while
the aiohttp fallback path returns the primary text unchanged. -/
theorem generate_error_semantics (client : Bool) (r : GenResponse)
    (d : RespBody) (prompt sysmsg : Str) :
    generateRaw client none prompt sysmsg = none
  ∧ (r.status ≠ 200 → generateRaw client (some r) prompt sysmsg = none)
  ∧ (r.status = 200 → r.body = none →
      generateRaw client (some r) prompt sysmsg = none)
  ∧ (d.response = [] → d.thinking ≠ [] →
      generateRaw true (some ⟨200, some d⟩) prompt sysmsg = some d.thinking)
  ∧ generateRaw false (some ⟨200, some d⟩) prompt sysmsg = some d.response := by
  refine ⟨rfl, ?_, ?_, ?_, ?_⟩
  · intro hs
    cases client <;> simp [generateRaw, hs]
  · intro h200 hbody
    cases client <;> simp [generateRaw, h200, hbody]
  · intro hresp hthink
    simp [generateRaw, hresp, hthink]
  · simp [generateRaw]

/-- Witness for the amended C9. -/
theorem generate_error_semantics_witness :
    (404 ≠ 200) ∧
    generateRaw true (some ⟨404, some ⟨[], []⟩⟩) [] [] = none ∧
    (([] : Str) = []) ∧ ((['r'] : Str) ≠ []) ∧
    generateRaw true (some ⟨200, some ⟨[], ['r']⟩⟩) [] [] = some ['r'] := by
  have h := generate_error_semantics true ⟨404, some ⟨[], []⟩⟩ ⟨[], ['r']⟩ [] []
  exact ⟨by decide, h.2.1 (by decide), rfl, by decide,
    h.2.2.2.1 rfl (by decide)⟩

theorem generate_briefing_state (st : OperatorState) (client : Bool)
    (net : Option GenResponse) (tid cat prof : Str) (gs : ℤ) :
    (generate_briefing st client net tid cat prof gs).2 = st ∨
    (generate_briefing st client net tid cat prof gs).2 =
      { st with total_suggestions_made := st.total_suggestions_made + 1 } := by
  simp only [generate_briefing]
  split
  · exact Or.inl rfl
  · split
    · exact Or.inl rfl
    · split
      · split
        · exact Or.inr rfl
        · exact Or.inl rfl
      · exact Or.inl rfl

/-- Claim C10: every get_context call bumps groups_processed by exactly one,
leaves the activity log, both approach partitions and the profile cache
unchanged, and changes total_suggestions_made by at most one. -/
theorem get_context_frame (st : OperatorState) (client : Bool)
    (net : Option GenResponse) (tid cat prof : Str) (gs : ℤ) :
    (get_context st client net tid cat prof gs).2.groups_processed =
      st.groups_processed + 1
  ∧ (get_context st client net tid cat prof gs).2.activity_log =
      st.activity_log
  ∧ (get_context st client net tid cat prof gs).2.successful_approaches =
      st.successful_approaches
  ∧ (get_context st client net tid cat prof gs).2.failed_approaches =
      st.failed_approaches
  ∧ (get_context st client net tid cat prof gs).2.active_profiles =
      st.active_profiles
  ∧ ((get_context st client net tid cat prof gs).2.total_suggestions_made =
      st.total_suggestions_made ∨
     (get_context st client net tid cat prof gs).2.total_suggestions_made =
      st.total_suggestions_made + 1) := by
  simp only [get_context]
  split
  · rcases generate_briefing_state
        { st with groups_processed := st.groups_processed + 1 } client net tid
        cat prof gs with h | h
    · rw [h]
      exact ⟨rfl, rfl, rfl, rfl, rfl, Or.inl rfl⟩
    · rw [h]
      exact ⟨rfl, rfl, rfl, rfl, rfl, Or.inr rfl⟩
  · exact ⟨rfl, rfl, rfl, rfl, rfl, Or.inl rfl⟩
